import Mathlib

/-! OpenCV2FFmpeg: the frame transcoding loop of `src/main.cpp`

A shallow embedding of `main` (src/main.cpp, lines 32-173).  The external
collaborators (the OpenCV capturer, the FFmpeg encoder and scaler, the stdio
sink) are fields of an environment `Env`, so that every theorem holds for all
of their behaviours.

Machine integers: `uint`/`uint32_t` values are `Nat` with an explicit
`% 2 ^ 32` wherever the C++ expression can wrap (`h * linesize`, `width * 3`,
the conversion of the frame count); `size_t` is taken as 64 bit (LP64).
The loop counter `i` never wraps: `i < framesToEncode < 2 ^ 32`.
-/

namespace OpenCV2FFmpeg

/-! ## Memory and the row copy (lines 130-136) -/

/-- A byte buffer addressed from its base pointer. -/
abbrev Mem := Nat → Nat

/-- The two buffers of the row copy: `dst` is `sourceAvFrame->data[0]`,
`src` is `cvFrame.data`.  They are distinct allocations. -/
structure Bufs where
  dst : Mem
  src : Mem

/-- One `memcpy` of the row loop, with the arguments it loads: offset into the
destination, offset into the source, byte count. -/
structure CopyCall where
  dOff : Nat
  sOff : Nat
  n : Nat
deriving DecidableEq

/-- `memcpy(dst + dOff, src + sOff, n)`: the `n` bytes from `src + sOff` land at
`dst + dOff`; the source is read only (`const void*`). -/
def memcpy (b : Bufs) (c : CopyCall) : Bufs :=
  { b with dst := fun a => if c.dOff ≤ a ∧ a < c.dOff + c.n then b.src (c.sOff + (a - c.dOff)) else b.dst a }

/-- The `memcpy` call of row `h` (line 136):
`&data[0][h*linesize[0]]` is `uint32_t * int`, computed in `unsigned int`;
`&cvFrame.data[h*cvFrame.step]` is `uint32_t * size_t`, computed in `size_t`;
`width*3` is `uint * int`, computed in `unsigned int`. -/
def rowCall (width linesize step h : Nat) : CopyCall :=
  { dOff := (h * linesize) % 2 ^ 32, sOff := (h * step) % 2 ^ 64, n := (width * 3) % 2 ^ 32 }

/-- The calls of `for (uint32_t h = 0; h < height; h++) memcpy(...)` in order. -/
def rowCopyCalls (width height linesize step : Nat) : List CopyCall :=
  (List.range height).map (rowCall width linesize step)

/-- The row loop of lines 135-136 run on the two buffers. -/
def copyRows (width height linesize step : Nat) (b : Bufs) : Bufs :=
  (rowCopyCalls width height linesize step).foldl memcpy b

/-! ## The collaborators -/

/-- What `videoCapturer.read(cvFrame)` delivers: packed rows and their stride. -/
structure RawFrame where
  data : Mem
  step : Nat

/-- The fields of `AVPacket` the program uses. -/
structure Packet where
  data : List Nat
  size : Nat
deriving DecidableEq

/-- What one `avcodec_encode_video2` call leaves behind: the encoder context,
`got_frame`, and the packet. -/
structure EncodeResult (σ : Type) where
  enc : σ
  got_frame : Int
  pkt : Packet

/-- The environment of one run: the command line and the behaviour of every
library call `main` makes. -/
structure Env (σ F : Type) where
  /-- The argument count. -/
  argc : Int
  /-- The value `std::istringstream(argv[3]) >> framesToEncode` stores (a `uint32_t`). -/
  framesToEncode : Nat
  /-- The answer of `videoCapturer.isOpened()`. -/
  isOpened : Bool
  /-- The value of `CV_CAP_PROP_FRAME_COUNT` (a `double` holding a whole number ≥ 0). -/
  totalFrameCount : Nat
  width : Nat
  height : Nat
  /-- The frames successive `videoCapturer.read` calls deliver before the first
  call that returns `false`. -/
  frames : List RawFrame
  /-- Whether `avcodec_find_encoder(destCodec)` returns a codec (non-NULL). -/
  codecFound : Bool
  /-- What `avcodec_open2` returns when it is handed a codec. -/
  openResult : Int
  /-- The encoder context after `avcodec_open2`. -/
  enc0 : σ
  /-- The call `avcodec_encode_video2(ctx, &pkt, frame, &got_frame)`; the frame
  argument is `none` for a NULL frame (the library's drain call) and
  `some (frame, pts)` otherwise. -/
  encode : σ → Option (F × Nat) → EncodeResult σ
  /-- Whether `fopen(output, "wb")` returns a stream. -/
  fopenOk : Bool
  /-- The `linesize[0]` that `av_image_alloc` reports for the source-format frame. -/
  linesize : Nat
  /-- The contents of the buffer `av_image_alloc` hands out in iteration `i`. -/
  fresh : Nat → Mem
  /-- The call `sws_scale` on the filled source frame, giving the destination frame. -/
  sws_scale : Mem → Nat → F
  /-- The number of bytes the sink is able to take on the `k`-th `fwrite` call. -/
  sink : Nat → Nat

/-! ## Observable events -/

/-- The calls of `main` on its collaborators, in program order. -/
inductive Event where
  /-- The call `videoCapturer.read` and its answer. -/
  | read (ok : Bool)
  /-- The call `avcodec_encode_video2` with the frame's `pts`, `none` for a NULL frame. -/
  | encode (pts : Option Nat)
  /-- The `fwrite` of line 160: the requested count and the return value. -/
  | fwritePacket (count ret : Nat)
  /-- The message "Could not write all ... bytes, but will continue.." of line 161. -/
  | shortWriteMsg (size : Nat)
  /-- The `fflush` of line 163. -/
  | fflush
  /-- The `fwrite` of line 171: the requested count and the return value. -/
  | fwriteEndcode (count ret : Nat)
  /-- The `fclose` of line 172. -/
  | fclose
deriving DecidableEq

/-- How the process ends: `exit code`, or the `abort()` of a failed `assert`. -/
inductive Outcome where
  | exit (code : Nat)
  | abort
deriving DecidableEq

/-- The state the frame loop threads through its iterations. -/
structure State (σ : Type) where
  /-- The frames the capturer has not delivered yet. -/
  frames : List RawFrame
  enc : σ
  /-- The bytes of the output file. -/
  file : List Nat
  /-- The number of `fwrite` calls made so far. -/
  nfwrite : Nat
  trace : List Event

/-- The result of the loop: it ran to its bound, or an `assert` failed. -/
inductive LoopResult (σ : Type) where
  | done (st : State σ)
  | aborted (st : State σ)

/-- What a run leaves behind. -/
structure Result (σ : Type) where
  outcome : Outcome
  enc : σ
  /-- The output file, `none` when `fopen` was never reached or failed. -/
  file : Option (List Nat)
  trace : List Event

/-! ## The program -/

/-- The array `uint8_t endcode[] = { 0, 0, 1, 0xb7 }` of line 48. -/
def endcode : List Nat := [0, 0, 1, 0xb7]

/-- Lines 73-77: `if (framesToEncode > totalFrameCount) framesToEncode = totalFrameCount;`
with the conversion of the `double` to `uint32_t`. -/
def clampFrames (framesToEncode totalFrameCount : Nat) : Nat :=
  if framesToEncode > totalFrameCount then totalFrameCount % 2 ^ 32 else framesToEncode

/-- The call `avcodec_open2(ctx, h264encoder, NULL)` of line 91.  The program
does not test `h264encoder`; FFmpeg answers a NULL codec with `AVERROR(EINVAL)`. -/
def avcodec_open2 (codecFound : Bool) (openResult : Int) : Int :=
  if codecFound then openResult else -22

/-- The return value of `fwrite(buf, 1, count, f)` on a sink able to take `cap` bytes. -/
def fwriteRet (cap count : Nat) : Nat := min cap count

/-- Lines 130-144 of iteration `i`: allocate the source frame, copy the rows of
`cv` into it, and scale into the destination frame. -/
def convertFrame {σ F : Type} (env : Env σ F) (i : Nat) (cv : RawFrame) : F :=
  env.sws_scale
    (copyRows env.width env.height env.linesize cv.step { dst := env.fresh i, src := cv.data }).dst
    env.linesize

/-- One iteration of the frame loop (lines 121-168) with counter `i`.  The
`assert` of line 125 is compiled in (no `NDEBUG`): a `read` that returns `false`
aborts the process. -/
def iteration {σ F : Type} (env : Env σ F) (i : Nat) (st : State σ) : LoopResult σ :=
  match st.frames with
  | [] => .aborted { st with trace := st.trace ++ [.read false] }
  | cv :: rest =>
    let r := env.encode st.enc (some (convertFrame env i cv, i))
    if r.got_frame ≠ 0 then
      let ret := fwriteRet (env.sink st.nfwrite) r.pkt.size
      .done
        { frames := rest
          enc := r.enc
          file := st.file ++ (r.pkt.data.take r.pkt.size).take ret
          nfwrite := st.nfwrite + 1
          trace := st.trace ++ [.read true, .encode (some i), .fwritePacket r.pkt.size ret]
            ++ (if ret < r.pkt.size then [.shortWriteMsg r.pkt.size] else []) ++ [.fflush] }
    else
      .done
        { frames := rest
          enc := r.enc
          file := st.file
          nfwrite := st.nfwrite
          trace := st.trace ++ [.read true, .encode (some i)] }

/-- The loop `for (uint i=0; i < framesToEncode; i++)` of line 120, entered with
counter `i` and `k = framesToEncode - i` iterations to go. -/
def frameLoop {σ F : Type} (env : Env σ F) : Nat → Nat → State σ → LoopResult σ
  | 0, _, st => .done st
  | k + 1, i, st =>
    match iteration env i st with
    | .aborted st1 => .aborted st1
    | .done st1 => frameLoop env k (i + 1) st1

/-- The program `main` (lines 32-173). -/
def main {σ F : Type} (env : Env σ F) : Result σ :=
  if env.argc ≠ 4 then
    { outcome := .exit 1, enc := env.enc0, file := none, trace := [] }
  else if env.isOpened = false then
    { outcome := .exit 1, enc := env.enc0, file := none, trace := [] }
  else if avcodec_open2 env.codecFound env.openResult < 0 then
    { outcome := .exit 1, enc := env.enc0, file := none, trace := [] }
  else if env.fopenOk = false then
    { outcome := .exit 1, enc := env.enc0, file := none, trace := [] }
  else
    match frameLoop env (clampFrames env.framesToEncode env.totalFrameCount) 0
        { frames := env.frames, enc := env.enc0, file := [], nfwrite := 0, trace := [] } with
    | .aborted st =>
      { outcome := .abort, enc := st.enc, file := some st.file, trace := st.trace }
    | .done st =>
      let ret := fwriteRet (env.sink st.nfwrite) 4
      { outcome := .exit 0
        enc := st.enc
        file := some (st.file ++ endcode.take ret)
        trace := st.trace ++ [.fwriteEndcode 4 ret, .fclose] }

/-! ## Reference functions

The encoder fed in isolation, and what the loop makes of its results. -/

/-- The results of the encoder when it is handed the converted frames in order,
the first with timestamp `i`. -/
def encoderRun {σ F : Type} (env : Env σ F) : List RawFrame → Nat → σ → List (EncodeResult σ)
  | [], _, _ => []
  | cv :: rest, i, s =>
    env.encode s (some (convertFrame env i cv, i))
      :: encoderRun env rest (i + 1) (env.encode s (some (convertFrame env i cv, i))).enc

/-- The encoder context after the calls of `encoderRun`. -/
def encoderFinal {σ F : Type} (env : Env σ F) : List RawFrame → Nat → σ → σ
  | [], _, s => s
  | cv :: rest, i, s =>
    encoderFinal env rest (i + 1) (env.encode s (some (convertFrame env i cv, i))).enc

/-- The bytes `payload[0:size]` of a packet. -/
def payload (p : Packet) : List Nat := p.data.take p.size

/-- The packets the encoder reported as produced (`got_frame` non-zero), in order. -/
def producedPackets {σ : Type} : List (EncodeResult σ) → List Packet
  | [] => []
  | r :: rs => if r.got_frame ≠ 0 then r.pkt :: producedPackets rs else producedPackets rs

/-- The concatenation of the payloads of a list of packets. -/
def concatPayloads : List Packet → List Nat
  | [] => []
  | p :: ps => payload p ++ concatPayloads ps

/-- The bytes the sink keeps of the packet writes, the first being `fwrite` call `w`. -/
def keptBytes (sink : Nat → Nat) : List Packet → Nat → List Nat
  | [], _ => []
  | p :: ps, w => (payload p).take (fwriteRet (sink w) p.size) ++ keptBytes sink ps (w + 1)

/-- The events of the iterations that got the encoder results `rs`, the first
with counter `i` and `fwrite` call number `w`. -/
def loopEvents {σ : Type} (sink : Nat → Nat) : List (EncodeResult σ) → Nat → Nat → List Event
  | [], _, _ => []
  | r :: rs, i, w =>
    if r.got_frame ≠ 0 then
      [.read true, .encode (some i), .fwritePacket r.pkt.size (fwriteRet (sink w) r.pkt.size)]
        ++ (if fwriteRet (sink w) r.pkt.size < r.pkt.size then [.shortWriteMsg r.pkt.size] else [])
        ++ [.fflush] ++ loopEvents sink rs (i + 1) (w + 1)
    else [.read true, .encode (some i)] ++ loopEvents sink rs (i + 1) w

/-- The state after the iterations over the first `k` frames of `st`. -/
def loopState {σ F : Type} (env : Env σ F) (k i : Nat) (st : State σ) : State σ :=
  { frames := st.frames.drop k
    enc := encoderFinal env (st.frames.take k) i st.enc
    file := st.file
      ++ keptBytes env.sink (producedPackets (encoderRun env (st.frames.take k) i st.enc)) st.nfwrite
    nfwrite := st.nfwrite + (producedPackets (encoderRun env (st.frames.take k) i st.enc)).length
    trace := st.trace ++ loopEvents env.sink (encoderRun env (st.frames.take k) i st.enc) i st.nfwrite }

/-! ## Projections of a trace -/

/-- The frame arguments of the encoder calls, in order. -/
def encodeCalls : List Event → List (Option Nat)
  | [] => []
  | .encode p :: es => p :: encodeCalls es
  | _ :: es => encodeCalls es

/-- The timestamps of the frames submitted to the encoder, in order. -/
def submitPts (tr : List Event) : List Nat := (encodeCalls tr).filterMap id

/-- The answers of the `read` calls, in order. -/
def reads : List Event → List Bool
  | [] => []
  | .read ok :: es => ok :: reads es
  | _ :: es => reads es

/-- The requested byte counts of the packet writes, in order. -/
def packetWrites : List Event → List Nat
  | [] => []
  | .fwritePacket c _ :: es => c :: packetWrites es
  | _ :: es => packetWrites es

/-- The return values of the end-marker writes, in order. -/
def endcodeWrites : List Event → List Nat
  | [] => []
  | .fwriteEndcode _ r :: es => r :: endcodeWrites es
  | _ :: es => endcodeWrites es

/-- Every `fwrite` of the trace returned the count it was asked for. -/
def allWritesFull : List Event → Prop
  | [] => True
  | .fwritePacket c r :: es => r = c ∧ allWritesFull es
  | .fwriteEndcode c r :: es => r = c ∧ allWritesFull es
  | _ :: es => allWritesFull es

/-- The run passes every check before the frame loop: four arguments, the input
opens, the codec opens, the output opens. -/
def reachesLoop {σ F : Type} (env : Env σ F) : Prop :=
  env.argc = 4 ∧ env.isOpened = true ∧ 0 ≤ avcodec_open2 env.codecFound env.openResult
    ∧ env.fopenOk = true

/-- The loop bound after the clamp of lines 73-77. -/
def loopBound {σ F : Type} (env : Env σ F) : Nat :=
  clampFrames env.framesToEncode env.totalFrameCount

/-! ## Decision procedures and concrete runs -/

/-- Decides `reachesLoop` from its four tests. -/
instance decReachesLoop {σ F : Type} (env : Env σ F) : Decidable (reachesLoop env) := by
  unfold reachesLoop; infer_instance

/-- Decides `allWritesFull` event by event. -/
def decAllWritesFull : (tr : List Event) → Decidable (allWritesFull tr)
  | [] => isTrue trivial
  | .fwritePacket c r :: es => @instDecidableAnd _ _ (Nat.decEq r c) (decAllWritesFull es)
  | .fwriteEndcode c r :: es => @instDecidableAnd _ _ (Nat.decEq r c) (decAllWritesFull es)
  | .read _ :: es => decAllWritesFull es
  | .encode _ :: es => decAllWritesFull es
  | .shortWriteMsg _ :: es => decAllWritesFull es
  | .fflush :: es => decAllWritesFull es
  | .fclose :: es => decAllWritesFull es

/-- The instance of `decAllWritesFull`. -/
instance instDecAllWritesFull (tr : List Event) : Decidable (allWritesFull tr) :=
  decAllWritesFull tr

/-- An encoder that holds each frame back by one call: the call for the frame
with timestamp `i` returns the packet of the frame before it, and a NULL-frame
call returns the packet still held. -/
def delayEncode (s : Option Packet) : Option (Unit × Nat) → EncodeResult (Option Packet)
  | some (_, i) =>
    { enc := some { data := [10 + i, 20 + i, 99], size := 2 }
      got_frame := if s.isSome then 1 else 0
      pkt := s.getD { data := [], size := 0 } }
  | none =>
    { enc := none
      got_frame := if s.isSome then 1 else 0
      pkt := s.getD { data := [], size := 0 } }

/-- An encoder without delay: the call for the frame with timestamp `i` returns
a packet of two payload bytes at once. -/
def directEncode (_ : Unit) : Option (Unit × Nat) → EncodeResult Unit
  | some (_, i) => { enc := (), got_frame := 1, pkt := { data := [10 + i, 20 + i, 99], size := 2 } }
  | none => { enc := (), got_frame := 0, pkt := { data := [], size := 0 } }

/-- A run on a 2x2 source of `nframes` frames with the delaying encoder. -/
def delayEnv (requested total nframes : Nat) (sink : Nat → Nat) : Env (Option Packet) Unit :=
  { argc := 4, framesToEncode := requested, isOpened := true, totalFrameCount := total
    width := 2, height := 2, frames := List.replicate nframes { data := fun a => a, step := 8 }
    codecFound := true, openResult := 0, enc0 := none, encode := delayEncode, fopenOk := true
    linesize := 6, fresh := fun _ _ => 0, sws_scale := fun _ _ => (), sink := sink }

/-- A run on a 2x2 source of `nframes` frames with the encoder without delay. -/
def directEnv (requested total nframes : Nat) (sink : Nat → Nat) : Env Unit Unit :=
  { argc := 4, framesToEncode := requested, isOpened := true, totalFrameCount := total
    width := 2, height := 2, frames := List.replicate nframes { data := fun a => a, step := 8 }
    codecFound := true, openResult := 0, enc0 := (), encode := directEncode, fopenOk := true
    linesize := 6, fresh := fun _ _ => 0, sws_scale := fun _ _ => (), sink := sink }

/-- The last four bytes of a file (the whole file when it is shorter). -/
def lastFour (f : List Nat) : List Nat := f.drop (f.length - 4)

/-! ## The loop, iteration by iteration -/

theorem frameLoop_eq {σ F : Type} (env : Env σ F) :
    ∀ (k i : Nat) (st : State σ),
      frameLoop env k i st =
        if k ≤ st.frames.length then .done (loopState env k i st)
        else .aborted { loopState env k i st with
                        trace := (loopState env k i st).trace ++ [.read false] } := by
  intro k
  induction k with
  | zero =>
    intro i st
    simp [frameLoop, loopState, encoderRun, encoderFinal, producedPackets, keptBytes, loopEvents]
  | succ k ih =>
    intro i st
    obtain ⟨frames, enc, file, nfw, trace⟩ := st
    cases frames with
    | nil =>
      simp [frameLoop, iteration, loopState, encoderRun, encoderFinal, producedPackets, keptBytes,
        loopEvents]
    | cons cv rest =>
      by_cases hg : (env.encode enc (some (convertFrame env i cv, i))).got_frame = 0
      · simp [frameLoop, iteration, hg, ih, loopState, encoderRun, encoderFinal, producedPackets,
          keptBytes, loopEvents]
      · simp [frameLoop, iteration, hg, ih, loopState, encoderRun, encoderFinal, producedPackets,
          keptBytes, loopEvents, payload, Nat.add_assoc, Nat.add_comm 1]

/-! ## Projections distribute over concatenation -/

theorem encodeCalls_append (a b : List Event) :
    encodeCalls (a ++ b) = encodeCalls a ++ encodeCalls b := by
  induction a with
  | nil => rfl
  | cons e es ih => cases e <;> simp [encodeCalls, ih]

theorem submitPts_append (a b : List Event) :
    submitPts (a ++ b) = submitPts a ++ submitPts b := by
  simp [submitPts, encodeCalls_append]

theorem reads_append (a b : List Event) : reads (a ++ b) = reads a ++ reads b := by
  induction a with
  | nil => rfl
  | cons e es ih => cases e <;> simp [reads, ih]

theorem packetWrites_append (a b : List Event) :
    packetWrites (a ++ b) = packetWrites a ++ packetWrites b := by
  induction a with
  | nil => rfl
  | cons e es ih => cases e <;> simp [packetWrites, ih]

theorem endcodeWrites_append (a b : List Event) :
    endcodeWrites (a ++ b) = endcodeWrites a ++ endcodeWrites b := by
  induction a with
  | nil => rfl
  | cons e es ih => cases e <;> simp [endcodeWrites, ih]

theorem allWritesFull_append (a b : List Event) :
    allWritesFull (a ++ b) ↔ allWritesFull a ∧ allWritesFull b := by
  induction a with
  | nil => simp [allWritesFull]
  | cons e es ih => cases e <;> simp [allWritesFull, ih, and_assoc]

/-! ## The events of the loop -/

theorem encoderRun_length {σ F : Type} (env : Env σ F) :
    ∀ (fs : List RawFrame) (i : Nat) (s : σ), (encoderRun env fs i s).length = fs.length := by
  intro fs
  induction fs with
  | nil => intro i s; rfl
  | cons cv rest ih => intro i s; simp [encoderRun, ih]

theorem encodeCalls_loopEvents {σ : Type} (sink : Nat → Nat) :
    ∀ (rs : List (EncodeResult σ)) (i w : Nat),
      encodeCalls (loopEvents sink rs i w) = (List.range' i rs.length).map some := by
  intro rs
  induction rs with
  | nil => intro i w; rfl
  | cons r rs ih =>
    intro i w
    by_cases hg : r.got_frame = 0
    · simp [loopEvents, hg, encodeCalls, ih, List.range'_succ]
    · by_cases hs : fwriteRet (sink w) r.pkt.size < r.pkt.size <;>
        simp [loopEvents, hg, hs, encodeCalls, ih, List.range'_succ]

theorem submitPts_loopEvents {σ : Type} (sink : Nat → Nat)
    (rs : List (EncodeResult σ)) (i w : Nat) :
    submitPts (loopEvents sink rs i w) = List.range' i rs.length := by
  simp [submitPts, encodeCalls_loopEvents, List.filterMap_map]

theorem reads_loopEvents {σ : Type} (sink : Nat → Nat) :
    ∀ (rs : List (EncodeResult σ)) (i w : Nat),
      reads (loopEvents sink rs i w) = List.replicate rs.length true := by
  intro rs
  induction rs with
  | nil => intro i w; rfl
  | cons r rs ih =>
    intro i w
    by_cases hg : r.got_frame = 0
    · simp [loopEvents, hg, reads, ih, List.replicate_succ]
    · by_cases hs : fwriteRet (sink w) r.pkt.size < r.pkt.size <;>
        simp [loopEvents, hg, hs, reads, ih, List.replicate_succ]

theorem packetWrites_loopEvents {σ : Type} (sink : Nat → Nat) :
    ∀ (rs : List (EncodeResult σ)) (i w : Nat),
      packetWrites (loopEvents sink rs i w) = (producedPackets rs).map Packet.size := by
  intro rs
  induction rs with
  | nil => intro i w; rfl
  | cons r rs ih =>
    intro i w
    by_cases hg : r.got_frame = 0
    · simp [loopEvents, hg, packetWrites, producedPackets, ih]
    · by_cases hs : fwriteRet (sink w) r.pkt.size < r.pkt.size <;>
        simp [loopEvents, hg, hs, packetWrites, producedPackets, ih]

theorem endcodeWrites_loopEvents {σ : Type} (sink : Nat → Nat) :
    ∀ (rs : List (EncodeResult σ)) (i w : Nat), endcodeWrites (loopEvents sink rs i w) = [] := by
  intro rs
  induction rs with
  | nil => intro i w; rfl
  | cons r rs ih =>
    intro i w
    by_cases hg : r.got_frame = 0
    · simp [loopEvents, hg, endcodeWrites, ih]
    · by_cases hs : fwriteRet (sink w) r.pkt.size < r.pkt.size <;>
        simp [loopEvents, hg, hs, endcodeWrites, ih]

theorem keptBytes_of_full {σ : Type} (sink : Nat → Nat) :
    ∀ (rs : List (EncodeResult σ)) (i w : Nat), allWritesFull (loopEvents sink rs i w) →
      keptBytes sink (producedPackets rs) w = concatPayloads (producedPackets rs) := by
  intro rs
  induction rs with
  | nil => intro i w _; rfl
  | cons r rs ih =>
    intro i w hfull
    by_cases hg : r.got_frame = 0
    · simp only [loopEvents, hg, ne_eq, not_true_eq_false, if_false, allWritesFull_append,
        allWritesFull, true_and] at hfull
      simpa [producedPackets, hg] using ih (i + 1) w hfull
    · simp only [loopEvents, hg, ne_eq, not_false_eq_true, if_true, allWritesFull_append,
        allWritesFull] at hfull
      have h1 : fwriteRet (sink w) r.pkt.size = r.pkt.size := hfull.1.1
      have h2 := ih (i + 1) (w + 1) hfull.2
      simp [producedPackets, hg, keptBytes, concatPayloads, h1, h2, payload]

/-! ## The run, once the frame loop is reached -/

theorem main_eq {σ F : Type} (env : Env σ F) (h : reachesLoop env) :
    main env =
      if loopBound env ≤ env.frames.length then
        { outcome := .exit 0
          enc := encoderFinal env (env.frames.take (loopBound env)) 0 env.enc0
          file := some
            (keptBytes env.sink
                (producedPackets (encoderRun env (env.frames.take (loopBound env)) 0 env.enc0)) 0
              ++ endcode.take (fwriteRet (env.sink (producedPackets
                  (encoderRun env (env.frames.take (loopBound env)) 0 env.enc0)).length) 4))
          trace :=
            loopEvents env.sink (encoderRun env (env.frames.take (loopBound env)) 0 env.enc0) 0 0
              ++ [.fwriteEndcode 4 (fwriteRet (env.sink (producedPackets
                    (encoderRun env (env.frames.take (loopBound env)) 0 env.enc0)).length) 4),
                  .fclose] }
      else
        { outcome := .abort
          enc := encoderFinal env (env.frames.take (loopBound env)) 0 env.enc0
          file := some
            (keptBytes env.sink
              (producedPackets (encoderRun env (env.frames.take (loopBound env)) 0 env.enc0)) 0)
          trace :=
            loopEvents env.sink (encoderRun env (env.frames.take (loopBound env)) 0 env.enc0) 0 0
              ++ [.read false] } := by
  obtain ⟨h1, h2, h3, h4⟩ := h
  have h3' : ¬ avcodec_open2 env.codecFound env.openResult < 0 := not_lt.mpr h3
  unfold main
  rw [if_neg (by simp [h1]), if_neg (by simp [h2]), if_neg h3', if_neg (by simp [h4]),
    frameLoop_eq]
  by_cases hk : loopBound env ≤ env.frames.length
  · have hk' : clampFrames env.framesToEncode env.totalFrameCount ≤ env.frames.length := hk
    simp [hk, hk', loopState, loopBound]
  · have hk' : ¬ clampFrames env.framesToEncode env.totalFrameCount ≤ env.frames.length := hk
    simp [hk, hk', loopState, loopBound]

/-! ## The row copy -/

theorem main_exit_iff {σ F : Type} (env : Env σ F) (h : reachesLoop env) :
    (main env).outcome = .exit 0 ↔ loopBound env ≤ env.frames.length := by
  rw [main_eq env h]
  by_cases hk : loopBound env ≤ env.frames.length <;> simp [hk]

theorem main_abort_iff {σ F : Type} (env : Env σ F) (h : reachesLoop env) :
    (main env).outcome = .abort ↔ env.frames.length < loopBound env := by
  rw [main_eq env h]
  by_cases hk : loopBound env ≤ env.frames.length
  · simp [hk]
  · simp [hk, Nat.lt_of_not_le hk]

theorem main_enc {σ F : Type} (env : Env σ F) (h : reachesLoop env) :
    (main env).enc = encoderFinal env (env.frames.take (loopBound env)) 0 env.enc0 := by
  rw [main_eq env h]
  by_cases hk : loopBound env ≤ env.frames.length <;> simp [hk]

theorem main_encodeCalls {σ F : Type} (env : Env σ F) (h : reachesLoop env) :
    encodeCalls (main env).trace
      = (List.range (min (loopBound env) env.frames.length)).map some := by
  rw [main_eq env h]
  by_cases hk : loopBound env ≤ env.frames.length <;>
    simp [hk, encodeCalls_append, encodeCalls_loopEvents, encodeCalls, encoderRun_length,
      List.range_eq_range']

theorem main_submitPts {σ F : Type} (env : Env σ F) (h : reachesLoop env) :
    submitPts (main env).trace = List.range (min (loopBound env) env.frames.length) := by
  simp [submitPts, main_encodeCalls env h, List.filterMap_map]

theorem main_packetWrites {σ F : Type} (env : Env σ F) (h : reachesLoop env) :
    packetWrites (main env).trace
      = (producedPackets (encoderRun env (env.frames.take (loopBound env)) 0 env.enc0)).map
          Packet.size := by
  rw [main_eq env h]
  by_cases hk : loopBound env ≤ env.frames.length <;>
    simp [hk, packetWrites_append, packetWrites_loopEvents, packetWrites]

theorem main_reads {σ F : Type} (env : Env σ F) (h : reachesLoop env) :
    reads (main env).trace
      = List.replicate (min (loopBound env) env.frames.length) true
          ++ (if loopBound env ≤ env.frames.length then [] else [false]) := by
  rw [main_eq env h]
  by_cases hk : loopBound env ≤ env.frames.length <;>
    simp [hk, reads_append, reads_loopEvents, reads, encoderRun_length]

theorem encoderRun_sink {σ F : Type} (env : Env σ F) (sink2 : Nat → Nat) :
    ∀ (fs : List RawFrame) (i : Nat) (s : σ),
      encoderRun { env with sink := sink2 } fs i s = encoderRun env fs i s := by
  intro fs
  induction fs with
  | nil => intro i s; rfl
  | cons cv rest ih => intro i s; simp [encoderRun, ih, convertFrame]

theorem encoderFinal_sink {σ F : Type} (env : Env σ F) (sink2 : Nat → Nat) :
    ∀ (fs : List RawFrame) (i : Nat) (s : σ),
      encoderFinal { env with sink := sink2 } fs i s = encoderFinal env fs i s := by
  intro fs
  induction fs with
  | nil => intro i s; rfl
  | cons cv rest ih => intro i s; simp [encoderFinal, ih, convertFrame]

theorem clampFrames_eq_min (r t : Nat) (hr : r < 2 ^ 32) : clampFrames r t = min r t := by
  unfold clampFrames
  by_cases h : r > t
  · rw [if_pos h, Nat.mod_eq_of_lt (by omega)]; omega
  · rw [if_neg h]; omega

theorem main_endcodeWrites {σ F : Type} (env : Env σ F) (h : reachesLoop env) :
    endcodeWrites (main env).trace
      = if loopBound env ≤ env.frames.length then
          [fwriteRet (env.sink (producedPackets
            (encoderRun env (env.frames.take (loopBound env)) 0 env.enc0)).length) 4]
        else [] := by
  rw [main_eq env h]
  by_cases hk : loopBound env ≤ env.frames.length <;>
    simp [hk, endcodeWrites_append, endcodeWrites_loopEvents, endcodeWrites]

theorem lastFour_append_endcode (bytes : List Nat) : lastFour (bytes ++ endcode) = endcode := by
  unfold lastFour
  exact List.drop_left' (by simp [endcode])

/-! ## The properties of the specification -/

/-- C1: for every run that reaches the frame loop with bound n (the frame count
after clamping) and exits, and in which every `fwrite` returns the count it was
asked for, the output file is exactly the concatenation, in frame order
i = 0..n-1, of `payload[0:size]` of each packet the encoder reported as produced
(`got_frame` non-zero) for frame i, followed by the 4 bytes 00 00 01 B7. -/
theorem file_eq_produced_payloads_then_endcode {σ F : Type} (env : Env σ F)
    (h : reachesLoop env) (hexit : (main env).outcome = .exit 0)
    (hfull : allWritesFull (main env).trace) :
    (main env).file = some
      (concatPayloads
          (producedPackets (encoderRun env (env.frames.take (loopBound env)) 0 env.enc0))
        ++ [0, 0, 1, 0xb7]) := by
  have hk := (main_exit_iff env h).mp hexit
  rw [main_eq env h, if_pos hk] at hfull ⊢
  simp only [allWritesFull_append, allWritesFull, and_true] at hfull
  obtain ⟨hloop, hret⟩ := hfull
  simp [keptBytes_of_full env.sink _ 0 0 hloop, hret, endcode]

theorem file_eq_produced_payloads_then_endcode_witness :
    (main (delayEnv 3 5 5 (fun _ => 100))).outcome = .exit 0
      ∧ allWritesFull (main (delayEnv 3 5 5 (fun _ => 100))).trace
      ∧ (main (delayEnv 3 5 5 (fun _ => 100))).file = some
          (concatPayloads (producedPackets (encoderRun (delayEnv 3 5 5 (fun _ => 100))
              ((delayEnv 3 5 5 (fun _ => 100)).frames.take
                (loopBound (delayEnv 3 5 5 (fun _ => 100)))) 0
              (delayEnv 3 5 5 (fun _ => 100)).enc0))
            ++ [0, 0, 1, 0xb7]) :=
  ⟨by decide, by decide,
    file_eq_produced_payloads_then_endcode (delayEnv 3 5 5 (fun _ => 100))
      (by decide) (by decide) (by decide)⟩

/-- C2, counterexample: a run of one frame exits with code 0 although the sink
takes only 3 of the 4 bytes of the final write; the file is 0A 14 00 00 01 and
its last four bytes are 14 00 00 01, not 00 00 01 B7. -/
theorem endcode_cut_by_short_final_write :
    reachesLoop (directEnv 1 1 1 (fun k => k + 2))
      ∧ (main (directEnv 1 1 1 (fun k => k + 2))).outcome = .exit 0
      ∧ (main (directEnv 1 1 1 (fun k => k + 2))).file = some [10, 20, 0, 0, 1]
      ∧ (main (directEnv 1 1 1 (fun k => k + 2))).file.map lastFour ≠ some [0, 0, 1, 0xb7] := by
  decide

/-- C2, amended: for every run that exits with code 0, whatever the sink
returns, the end-marker write is issued exactly once, it comes after every
packet write, and only `fclose` follows it; when moreover the sink accepts all 4
bytes of that final write, the last 4 bytes of the output file are exactly
00 00 01 B7. -/
theorem endcode_last_when_final_write_full {σ F : Type} (env : Env σ F)
    (h : reachesLoop env) (hexit : (main env).outcome = .exit 0) :
    (endcodeWrites (main env).trace).length = 1
      ∧ (∃ pre ret, (main env).trace = pre ++ [.fwriteEndcode 4 ret, .fclose]
          ∧ endcodeWrites pre = []
          ∧ packetWrites pre = packetWrites (main env).trace)
      ∧ ((∀ r ∈ endcodeWrites (main env).trace, r = 4) →
          (main env).file.map lastFour = some [0, 0, 1, 0xb7]
            ∧ endcodeWrites (main env).trace = [4]) := by
  have hk := (main_exit_iff env h).mp hexit
  have hw := main_endcodeWrites env h
  rw [if_pos hk] at hw
  refine ⟨by rw [hw]; rfl, ?_, ?_⟩
  · rw [main_eq env h, if_pos hk]
    refine ⟨_, _, rfl, endcodeWrites_loopEvents _ _ _ _, ?_⟩
    simp [packetWrites_append, packetWrites]
  · intro hfin
    have hret : fwriteRet (env.sink (producedPackets
        (encoderRun env (env.frames.take (loopBound env)) 0 env.enc0)).length) 4 = 4 :=
      hfin _ (by simp [hw])
    refine ⟨?_, by rw [hw, hret]⟩
    rw [main_eq env h, if_pos hk]
    simp only [hret]
    have := lastFour_append_endcode (keptBytes env.sink
      (producedPackets (encoderRun env (env.frames.take (loopBound env)) 0 env.enc0)) 0)
    simpa [endcode] using this

theorem endcode_last_when_final_write_full_witness :
    ((main (directEnv 2 2 2 (fun k => if k < 2 then 1 else 4))).file
          = some [10, 11, 0, 0, 1, 0xb7]
        ∧ (main (directEnv 2 2 2 (fun k => if k < 2 then 1 else 4))).outcome = .exit 0)
      ∧ (endcodeWrites (main (directEnv 2 2 2 (fun k => if k < 2 then 1 else 4))).trace).length
          = 1
      ∧ ((main (directEnv 2 2 2 (fun k => if k < 2 then 1 else 4))).file.map lastFour
            = some [0, 0, 1, 0xb7]
        ∧ endcodeWrites (main (directEnv 2 2 2 (fun k => if k < 2 then 1 else 4))).trace = [4]) :=
  ⟨by decide,
    (endcode_last_when_final_write_full (directEnv 2 2 2 (fun k => if k < 2 then 1 else 4))
      (by decide) (by decide)).1,
    (endcode_last_when_final_write_full (directEnv 2 2 2 (fun k => if k < 2 then 1 else 4))
      (by decide) (by decide)).2.2 (by decide)⟩

/-- C3, counterexample: with an encoder that holds each frame back by one call,
a run of one frame exits with code 0 after a single encoder call; the file is
the end marker alone, and the encoder context at exit still holds the packet of
the submitted frame (a NULL-frame call on it would return that packet). -/
theorem buffered_packet_never_written :
    reachesLoop (delayEnv 1 1 1 (fun _ => 100))
      ∧ (main (delayEnv 1 1 1 (fun _ => 100))).outcome = .exit 0
      ∧ (main (delayEnv 1 1 1 (fun _ => 100))).trace
          = [.read true, .encode (some 0), .fwriteEndcode 4 4, .fclose]
      ∧ (main (delayEnv 1 1 1 (fun _ => 100))).file = some [0, 0, 1, 0xb7]
      ∧ (delayEncode (main (delayEnv 1 1 1 (fun _ => 100))).enc none).got_frame = 1
      ∧ payload (delayEncode (main (delayEnv 1 1 1 (fun _ => 100))).enc none).pkt = [10, 20] := by
  decide

/-- C3, amended: the pipeline does not flush the encoder.  In a run that exits
with code 0 after n loop iterations the encoder is called exactly n times, each
time with a frame (never with the NULL frame that drains it); the encoder
context at exit is the one the n-th submit left; the packet writes are exactly
those of the packets the n submit calls returned, and the file holds what the
sink kept of them followed by what it kept of the end marker.  Packets the
encoder still holds buffered when the loop ends are not written. -/
theorem encoder_not_drained_after_loop {σ F : Type} (env : Env σ F)
    (h : reachesLoop env) (hexit : (main env).outcome = .exit 0) :
    encodeCalls (main env).trace = (List.range (loopBound env)).map some
      ∧ (main env).enc = encoderFinal env (env.frames.take (loopBound env)) 0 env.enc0
      ∧ packetWrites (main env).trace
          = (producedPackets (encoderRun env (env.frames.take (loopBound env)) 0 env.enc0)).map
              Packet.size
      ∧ (main env).file = some
          (keptBytes env.sink
              (producedPackets (encoderRun env (env.frames.take (loopBound env)) 0 env.enc0)) 0
            ++ endcode.take (fwriteRet (env.sink (producedPackets
                (encoderRun env (env.frames.take (loopBound env)) 0 env.enc0)).length) 4)) := by
  have hk := (main_exit_iff env h).mp hexit
  refine ⟨?_, main_enc env h, main_packetWrites env h, ?_⟩
  · rw [main_encodeCalls env h, Nat.min_eq_left hk]
  · rw [main_eq env h, if_pos hk]

theorem encoder_not_drained_after_loop_witness :
    (main (delayEnv 2 3 3 (fun _ => 100))).file = some [10, 20, 0, 0, 1, 0xb7]
      ∧ (encodeCalls (main (delayEnv 2 3 3 (fun _ => 100))).trace
            = (List.range (loopBound (delayEnv 2 3 3 (fun _ => 100)))).map some
        ∧ (main (delayEnv 2 3 3 (fun _ => 100))).enc
            = encoderFinal (delayEnv 2 3 3 (fun _ => 100))
                ((delayEnv 2 3 3 (fun _ => 100)).frames.take
                  (loopBound (delayEnv 2 3 3 (fun _ => 100)))) 0
                (delayEnv 2 3 3 (fun _ => 100)).enc0
        ∧ packetWrites (main (delayEnv 2 3 3 (fun _ => 100))).trace
            = (producedPackets (encoderRun (delayEnv 2 3 3 (fun _ => 100))
                ((delayEnv 2 3 3 (fun _ => 100)).frames.take
                  (loopBound (delayEnv 2 3 3 (fun _ => 100)))) 0
                (delayEnv 2 3 3 (fun _ => 100)).enc0)).map Packet.size
        ∧ (main (delayEnv 2 3 3 (fun _ => 100))).file = some
            (keptBytes (delayEnv 2 3 3 (fun _ => 100)).sink
                (producedPackets (encoderRun (delayEnv 2 3 3 (fun _ => 100))
                  ((delayEnv 2 3 3 (fun _ => 100)).frames.take
                    (loopBound (delayEnv 2 3 3 (fun _ => 100)))) 0
                  (delayEnv 2 3 3 (fun _ => 100)).enc0)) 0
              ++ endcode.take (fwriteRet ((delayEnv 2 3 3 (fun _ => 100)).sink (producedPackets
                  (encoderRun (delayEnv 2 3 3 (fun _ => 100))
                    ((delayEnv 2 3 3 (fun _ => 100)).frames.take
                      (loopBound (delayEnv 2 3 3 (fun _ => 100)))) 0
                    (delayEnv 2 3 3 (fun _ => 100)).enc0)).length) 4))) :=
  ⟨by decide,
    encoder_not_drained_after_loop (delayEnv 2 3 3 (fun _ => 100)) (by decide) (by decide)⟩

/-- C4: for every requested frame count r (a `uint32_t`) and every
source-reported total t, the loop bound after the clamp is min(r, t), and a run
that exits has pulled exactly min(r, t) frames and submitted exactly
min(r, t) frames, in order: t of them when r > t, r of them when r <= t; the
encoder has then been fed the first min(r, t) frames of the source, none
fabricated and none skipped.  On every run the timestamps submitted count up
from 0 over the frames pulled. -/
theorem loop_processes_min_frames {σ F : Type} (env : Env σ F)
    (h : reachesLoop env) (hr : env.framesToEncode < 2 ^ 32) :
    loopBound env = min env.framesToEncode env.totalFrameCount
      ∧ submitPts (main env).trace
          = List.range (min (min env.framesToEncode env.totalFrameCount) env.frames.length)
      ∧ ((main env).outcome = .exit 0 →
          reads (main env).trace
              = List.replicate (min env.framesToEncode env.totalFrameCount) true
            ∧ submitPts (main env).trace
              = List.range (min env.framesToEncode env.totalFrameCount)
            ∧ (main env).enc
              = encoderFinal env
                  (env.frames.take (min env.framesToEncode env.totalFrameCount)) 0 env.enc0
            ∧ (env.framesToEncode > env.totalFrameCount →
                (submitPts (main env).trace).length = env.totalFrameCount)
            ∧ (env.framesToEncode ≤ env.totalFrameCount →
                (submitPts (main env).trace).length = env.framesToEncode)) := by
  have hb : loopBound env = min env.framesToEncode env.totalFrameCount :=
    clampFrames_eq_min _ _ hr
  refine ⟨hb, ?_, ?_⟩
  · rw [main_submitPts env h, hb]
  · intro hexit
    have hk := (main_exit_iff env h).mp hexit
    have hs : submitPts (main env).trace
        = List.range (min env.framesToEncode env.totalFrameCount) := by
      rw [main_submitPts env h, Nat.min_eq_left hk, hb]
    refine ⟨?_, hs, ?_, ?_, ?_⟩
    · rw [main_reads env h, if_pos hk, Nat.min_eq_left hk, hb]; simp
    · rw [main_enc env h, hb]
    · intro hgt; rw [hs, List.length_range]; omega
    · intro hle; rw [hs, List.length_range]; omega

theorem loop_processes_min_frames_witness :
    (submitPts (main (directEnv 7 3 3 (fun _ => 100))).trace = [0, 1, 2]
        ∧ reads (main (directEnv 7 3 3 (fun _ => 100))).trace = [true, true, true])
      ∧ (loopBound (directEnv 7 3 3 (fun _ => 100))
            = min (directEnv 7 3 3 (fun _ => 100)).framesToEncode
                (directEnv 7 3 3 (fun _ => 100)).totalFrameCount
        ∧ submitPts (main (directEnv 7 3 3 (fun _ => 100))).trace
            = List.range (min (min (directEnv 7 3 3 (fun _ => 100)).framesToEncode
                (directEnv 7 3 3 (fun _ => 100)).totalFrameCount)
                (directEnv 7 3 3 (fun _ => 100)).frames.length)
        ∧ ((main (directEnv 7 3 3 (fun _ => 100))).outcome = .exit 0 →
            reads (main (directEnv 7 3 3 (fun _ => 100))).trace
                = List.replicate (min (directEnv 7 3 3 (fun _ => 100)).framesToEncode
                    (directEnv 7 3 3 (fun _ => 100)).totalFrameCount) true
              ∧ submitPts (main (directEnv 7 3 3 (fun _ => 100))).trace
                = List.range (min (directEnv 7 3 3 (fun _ => 100)).framesToEncode
                    (directEnv 7 3 3 (fun _ => 100)).totalFrameCount)
              ∧ (main (directEnv 7 3 3 (fun _ => 100))).enc
                = encoderFinal (directEnv 7 3 3 (fun _ => 100))
                    ((directEnv 7 3 3 (fun _ => 100)).frames.take
                      (min (directEnv 7 3 3 (fun _ => 100)).framesToEncode
                        (directEnv 7 3 3 (fun _ => 100)).totalFrameCount)) 0
                    (directEnv 7 3 3 (fun _ => 100)).enc0
              ∧ ((directEnv 7 3 3 (fun _ => 100)).framesToEncode
                    > (directEnv 7 3 3 (fun _ => 100)).totalFrameCount →
                  (submitPts (main (directEnv 7 3 3 (fun _ => 100))).trace).length
                    = (directEnv 7 3 3 (fun _ => 100)).totalFrameCount)
              ∧ ((directEnv 7 3 3 (fun _ => 100)).framesToEncode
                    ≤ (directEnv 7 3 3 (fun _ => 100)).totalFrameCount →
                  (submitPts (main (directEnv 7 3 3 (fun _ => 100))).trace).length
                    = (directEnv 7 3 3 (fun _ => 100)).framesToEncode))) :=
  ⟨by decide, loop_processes_min_frames (directEnv 7 3 3 (fun _ => 100)) (by decide) (by decide)⟩

/-- C5: in every run the encoder receives exactly one call per processed frame,
each a submit, and the k-th call (0-based) carries presentation timestamp k:
with m frames processed (m = n when the run exits) the timestamps are
0, 1, ..., m-1 in order, strictly increasing, with no duplicate. -/
theorem submit_timestamps_count_up {σ F : Type} (env : Env σ F) (h : reachesLoop env) :
    encodeCalls (main env).trace
        = (List.range (min (loopBound env) env.frames.length)).map some
      ∧ submitPts (main env).trace = List.range (min (loopBound env) env.frames.length)
      ∧ (submitPts (main env).trace).length = min (loopBound env) env.frames.length
      ∧ (∀ k, k < min (loopBound env) env.frames.length →
          (submitPts (main env).trace)[k]? = some k)
      ∧ (submitPts (main env).trace).Pairwise (· < ·)
      ∧ (submitPts (main env).trace).Nodup
      ∧ ((main env).outcome = .exit 0 →
          submitPts (main env).trace = List.range (loopBound env)) := by
  have hs := main_submitPts env h
  refine ⟨main_encodeCalls env h, hs, ?_, ?_, ?_, ?_, ?_⟩
  · rw [hs, List.length_range]
  · intro k hk; rw [hs]; exact List.getElem?_range hk
  · rw [hs]; exact List.pairwise_lt_range _
  · rw [hs]; exact List.nodup_range _
  · intro hexit
    rw [hs, Nat.min_eq_left ((main_exit_iff env h).mp hexit)]

theorem submit_timestamps_count_up_witness :
    submitPts (main (delayEnv 5 10 10 (fun _ => 100))).trace = [0, 1, 2, 3, 4]
      ∧ (submitPts (main (delayEnv 5 10 10 (fun _ => 100))).trace).Pairwise (· < ·) :=
  ⟨by decide,
    (submit_timestamps_count_up (delayEnv 5 10 10 (fun _ => 100)) (by decide)).2.2.2.2.1⟩

/-- C7: a packet write the sink accepts only in part is attempted once and stops
nothing.  Whatever the sink returns, the run makes exactly one packet `fwrite`
per packet the encoder produced, in order; an iteration whose write comes back
short ends normally with that single write; the outcome, the encoder calls, the
reads and the packet writes are the same under any other sink; and when the
source delivers the n frames, all n are pulled and submitted and the end marker
is written once. -/
theorem short_write_not_retried_not_fatal {σ F : Type} (env : Env σ F) (sink2 : Nat → Nat)
    (h : reachesLoop env) :
    packetWrites (main env).trace
        = (producedPackets (encoderRun env (env.frames.take (loopBound env)) 0 env.enc0)).map
            Packet.size
      ∧ (∀ (i : Nat) (st : State σ) (cv : RawFrame) (rest : List RawFrame),
          st.frames = cv :: rest →
          (env.encode st.enc (some (convertFrame env i cv, i))).got_frame ≠ 0 →
          env.sink st.nfwrite < (env.encode st.enc (some (convertFrame env i cv, i))).pkt.size →
          ∃ st1, iteration env i st = .done st1 ∧ st1.frames = rest
            ∧ st1.trace = st.trace ++
                [.read true, .encode (some i),
                 .fwritePacket (env.encode st.enc (some (convertFrame env i cv, i))).pkt.size
                   (env.sink st.nfwrite),
                 .shortWriteMsg (env.encode st.enc (some (convertFrame env i cv, i))).pkt.size,
                 .fflush])
      ∧ ((main { env with sink := sink2 }).outcome = (main env).outcome
          ∧ (main { env with sink := sink2 }).enc = (main env).enc
          ∧ encodeCalls (main { env with sink := sink2 }).trace = encodeCalls (main env).trace
          ∧ reads (main { env with sink := sink2 }).trace = reads (main env).trace
          ∧ packetWrites (main { env with sink := sink2 }).trace = packetWrites (main env).trace
          ∧ (endcodeWrites (main { env with sink := sink2 }).trace).length
              = (endcodeWrites (main env).trace).length)
      ∧ (loopBound env ≤ env.frames.length →
          (main env).outcome = .exit 0
            ∧ submitPts (main env).trace = List.range (loopBound env)
            ∧ reads (main env).trace = List.replicate (loopBound env) true
            ∧ (endcodeWrites (main env).trace).length = 1) := by
  have h2 : reachesLoop { env with sink := sink2 } := h
  have hb : loopBound { env with sink := sink2 } = loopBound env := rfl
  have hf : ({ env with sink := sink2 } : Env σ F).frames = env.frames := rfl
  have he : ({ env with sink := sink2 } : Env σ F).enc0 = env.enc0 := rfl
  refine ⟨main_packetWrites env h, ?_, ⟨?_, ?_, ?_, ?_, ?_, ?_⟩, ?_⟩
  · intro i st cv rest hfr hgot hshort
    have hret : fwriteRet (env.sink st.nfwrite)
        (env.encode st.enc (some (convertFrame env i cv, i))).pkt.size = env.sink st.nfwrite := by
      simp [fwriteRet, Nat.le_of_lt hshort]
    simp [iteration, hfr, hgot, hret, hshort]
  · rw [main_eq _ h2, main_eq env h, hb, hf]
    by_cases hk : loopBound env ≤ env.frames.length <;> simp [hk]
  · rw [main_enc _ h2, main_enc env h, hb, hf, he, encoderFinal_sink]
  · rw [main_encodeCalls _ h2, main_encodeCalls env h, hb, hf]
  · rw [main_reads _ h2, main_reads env h, hb, hf]
  · rw [main_packetWrites _ h2, main_packetWrites env h, hb, hf, he, encoderRun_sink]
  · rw [main_endcodeWrites _ h2, main_endcodeWrites env h, hb, hf]
    by_cases hk : loopBound env ≤ env.frames.length <;> simp [hk]
  · intro hk
    refine ⟨(main_exit_iff env h).mpr hk, ?_, ?_, ?_⟩
    · rw [main_submitPts env h, Nat.min_eq_left hk]
    · rw [main_reads env h, if_pos hk, Nat.min_eq_left hk]; simp
    · rw [main_endcodeWrites env h, if_pos hk]; simp

theorem short_write_not_retried_not_fatal_witness :
    ((main (directEnv 3 3 3 (fun _ => 1))).file = some [10, 11, 12, 0]
        ∧ (main (directEnv 3 3 3 (fun _ => 1))).outcome = .exit 0
        ∧ submitPts (main (directEnv 3 3 3 (fun _ => 1))).trace = [0, 1, 2])
      ∧ packetWrites (main (directEnv 3 3 3 (fun _ => 1))).trace
          = (producedPackets (encoderRun (directEnv 3 3 3 (fun _ => 1))
              ((directEnv 3 3 3 (fun _ => 1)).frames.take
                (loopBound (directEnv 3 3 3 (fun _ => 1)))) 0
              (directEnv 3 3 3 (fun _ => 1)).enc0)).map Packet.size :=
  ⟨by decide,
    (short_write_not_retried_not_fatal (directEnv 3 3 3 (fun _ => 1)) (fun _ => 100)
      (by decide)).1⟩

/-- C8: if the frame source reports no more frames at iteration i < framesToEncode
(it delivers i frames, fewer than the loop bound), the run aborts at that read:
the failed read is the last event, exactly the frames 0..i-1 were submitted
before it, the packet writes are those of the first i frames only, the end marker
is never written, and the run does not end with an exit code. -/
theorem source_exhausted_aborts {σ F : Type} (env : Env σ F)
    (h : reachesLoop env) (hex : env.frames.length < loopBound env) :
    (main env).outcome = .abort
      ∧ (main env).outcome ≠ .exit 0
      ∧ submitPts (main env).trace = List.range env.frames.length
      ∧ reads (main env).trace = List.replicate env.frames.length true ++ [false]
      ∧ endcodeWrites (main env).trace = []
      ∧ (∃ pre, (main env).trace = pre ++ [.read false]
          ∧ submitPts pre = List.range env.frames.length
          ∧ packetWrites pre = packetWrites (main env).trace)
      ∧ packetWrites (main env).trace
          = (producedPackets (encoderRun env env.frames 0 env.enc0)).map Packet.size
      ∧ (main env).file
          = some (keptBytes env.sink (producedPackets (encoderRun env env.frames 0 env.enc0)) 0) := by
  have hk : ¬ loopBound env ≤ env.frames.length := Nat.not_le_of_lt hex
  have hab := (main_abort_iff env h).mpr hex
  have htake : env.frames.take (loopBound env) = env.frames :=
    List.take_of_length_le (Nat.le_of_lt hex)
  have hmin : min (loopBound env) env.frames.length = env.frames.length :=
    Nat.min_eq_right (Nat.le_of_lt hex)
  refine ⟨hab, by simp [hab], ?_, ?_, ?_, ?_, ?_, ?_⟩
  · rw [main_submitPts env h, hmin]
  · rw [main_reads env h, if_neg hk, hmin]
  · rw [main_endcodeWrites env h, if_neg hk]
  · rw [main_eq env h, if_neg hk, htake]
    refine ⟨_, rfl, ?_, ?_⟩
    · rw [submitPts_loopEvents, encoderRun_length, List.range_eq_range']
    · simp [packetWrites_append, packetWrites]
  · rw [main_packetWrites env h, htake]
  · rw [main_eq env h, if_neg hk, htake]

theorem source_exhausted_aborts_witness :
    (main (directEnv 5 5 2 (fun _ => 100))).file = some [10, 20, 11, 21]
      ∧ ((main (directEnv 5 5 2 (fun _ => 100))).outcome = .abort
        ∧ (main (directEnv 5 5 2 (fun _ => 100))).outcome ≠ .exit 0
        ∧ submitPts (main (directEnv 5 5 2 (fun _ => 100))).trace
            = List.range (directEnv 5 5 2 (fun _ => 100)).frames.length) :=
  ⟨by decide,
    (source_exhausted_aborts (directEnv 5 5 2 (fun _ => 100)) (by decide) (by decide)).1,
    (source_exhausted_aborts (directEnv 5 5 2 (fun _ => 100)) (by decide) (by decide)).2.1,
    (source_exhausted_aborts (directEnv 5 5 2 (fun _ => 100)) (by decide) (by decide)).2.2.1⟩

/-- C9: the program exits with code 1 when the argument count is not 4, when the
input cannot be opened, when the output file cannot be opened, when no encoder is
found for the codec, and when the codec cannot be opened; in each of these cases
the source is never read and the encoder never called. -/
theorem setup_failure_exits_one {σ F : Type} (env : Env σ F)
    (hbad : env.argc ≠ 4 ∨ env.isOpened = false ∨ env.fopenOk = false
      ∨ env.codecFound = false ∨ env.openResult < 0) :
    (main env).outcome = .exit 1
      ∧ reads (main env).trace = []
      ∧ encodeCalls (main env).trace = []
      ∧ (main env).trace = []
      ∧ (main env).enc = env.enc0 := by
  have hopen : env.codecFound = false ∨ env.openResult < 0 →
      avcodec_open2 env.codecFound env.openResult < 0 := by
    intro hc
    unfold avcodec_open2
    rcases hc with hc | hc
    · simp [hc]
    · split <;> simp [hc]
  unfold main
  by_cases h1 : env.argc ≠ 4
  · rw [if_pos h1]; simp [reads, encodeCalls]
  rw [if_neg h1]
  by_cases h2 : env.isOpened = false
  · rw [if_pos h2]; simp [reads, encodeCalls]
  rw [if_neg h2]
  by_cases h3 : avcodec_open2 env.codecFound env.openResult < 0
  · rw [if_pos h3]; simp [reads, encodeCalls]
  rw [if_neg h3]
  by_cases h4 : env.fopenOk = false
  · rw [if_pos h4]; simp [reads, encodeCalls]
  exfalso
  rcases hbad with hb | hb | hb | hb | hb
  · exact h1 hb
  · exact h2 hb
  · exact h4 hb
  · exact h3 (hopen (Or.inl hb))
  · exact h3 (hopen (Or.inr hb))

theorem setup_failure_exits_one_witness :
    ((main { delayEnv 3 5 5 (fun _ => 100) with codecFound := false }).file = none
        ∧ (main { delayEnv 3 5 5 (fun _ => 100) with argc := 3 }).outcome = .exit 1
        ∧ (main { delayEnv 3 5 5 (fun _ => 100) with isOpened := false }).outcome = .exit 1
        ∧ (main { delayEnv 3 5 5 (fun _ => 100) with fopenOk := false }).outcome = .exit 1
        ∧ (main { delayEnv 3 5 5 (fun _ => 100) with openResult := -1 }).outcome = .exit 1)
      ∧ ((main { delayEnv 3 5 5 (fun _ => 100) with codecFound := false }).outcome = .exit 1
        ∧ reads (main { delayEnv 3 5 5 (fun _ => 100) with codecFound := false }).trace = []
        ∧ encodeCalls (main { delayEnv 3 5 5 (fun _ => 100) with codecFound := false }).trace = []
        ∧ (main { delayEnv 3 5 5 (fun _ => 100) with codecFound := false }).trace = []
        ∧ (main { delayEnv 3 5 5 (fun _ => 100) with codecFound := false }).enc
            = ({ delayEnv 3 5 5 (fun _ => 100) with codecFound := false }
                : Env (Option Packet) Unit).enc0) :=
  ⟨by decide,
    setup_failure_exits_one { delayEnv 3 5 5 (fun _ => 100) with codecFound := false }
      (Or.inr (Or.inr (Or.inr (Or.inl rfl))))⟩

end OpenCV2FFmpeg
